import Mathlib

/-!
Verification development for `seismic/pick_harvester/travel_time.py`.

The file embeds, as executable Lean definitions, the travel-time table
parser (`Phase._parse_tt`), the interpolator construction performed in
`Phase.__init__`, and the registry / query layer (`TTInterpolator`
with its `get_tt`, `get_dtdd`, `get_dtdh` methods), and proves
properties about them.

Modelling conventions:
* A table file is a list of lines, each already split into whitespace
  separated tokens (`line.split()`); a token is either a non-numeric
  word or a numeric literal carried as an exact rational.
* Python floats are modelled as rationals; `np.nan` cells are
  `Option.none`.  The float32 cast performed by the batched query path
  (`dtype='f4'`) is modelled by `roundF32`, round-to-nearest-even at 24
  significant bits (normal range).
* Python `bytes` vs `str` phase labels are the two constructors of
  `PyKey`; distinct constructors never compare equal, like Python.
* Exceptions are `Except`; a `defaultdict` lookup returns the value
  together with the possibly extended dictionary.
-/

deriving instance DecidableEq for Except

attribute [local semireducible] Rat.mul Rat.inv Rat.add Rat.sub Rat.ofScientific

abbrev Q2 : Type := ℚ × ℚ

/-- A cell of a parsed grid: `none` models `np.nan`. -/
abbrev Cell : Type := Option ℚ

/-- One whitespace-separated token of a table file line. -/
inductive Tok : Type where
  | word (s : String)
  | num (q : ℚ)
deriving DecidableEq, Repr

/-- A physical line of a table file, already split into tokens. -/
abbrev Line : Type := List Tok

/-- `' '.join(row) == '# delta samples'` for a tokenised line. -/
def isDeltaMarker (l : Line) : Bool :=
  l = [Tok.word ("#"), Tok.word ("delta"), Tok.word ("samples")]

/-- `' '.join(row) == '# depth samples'`. -/
def isDepthMarker (l : Line) : Bool :=
  l = [Tok.word ("#"), Tok.word ("depth"), Tok.word ("samples")]

/-- `' '.join(row) == '# travel times (rows - delta, columns - depth)'`. -/
def isTimesMarker (l : Line) : Bool :=
  l = [Tok.word ("#"), Tok.word ("travel"), Tok.word ("times"), Tok.word ("(rows"),
       Tok.word ("-"), Tok.word ("delta,"), Tok.word ("columns"), Tok.word ("-"),
       Tok.word ("depth)")]

/-- `' '.join(row) == '# dtdd (rows - delta, columns - depth)'`. -/
def isDtddMarker (l : Line) : Bool :=
  l = [Tok.word ("#"), Tok.word ("dtdd"), Tok.word ("(rows"),
       Tok.word ("-"), Tok.word ("delta,"), Tok.word ("columns"), Tok.word ("-"),
       Tok.word ("depth)")]

/-- `' '.join(row) == '# dtdh (rows - delta, columns - depth)'`. -/
def isDtdhMarker (l : Line) : Bool :=
  l = [Tok.word ("#"), Tok.word ("dtdh"), Tok.word ("(rows"),
       Tok.word ("-"), Tok.word ("delta,"), Tok.word ("columns"), Tok.word ("-"),
       Tok.word ("depth)")]

/-- A line that matches one of the five section markers of `_parse_tt`. -/
def isMarkerLine (l : Line) : Bool :=
  isDeltaMarker l || isDepthMarker l || isTimesMarker l || isDtddMarker l || isDtdhMarker l

/-- The ten section-boundary indices of `Phase._parse_tt`, all of which the
source initialises to `0` before scanning for markers.  They are integers
because the source assigns values such as `ind - 2`, which can be negative. -/
structure Bounds : Type where
  dists_start : ℤ
  dists_end : ℤ
  depths_start : ℤ
  depths_end : ℤ
  times_start : ℤ
  times_end : ℤ
  dtdd_start : ℤ
  dtdd_end : ℤ
  dtdh_start : ℤ
  dtdh_end : ℤ
deriving DecidableEq, Repr

/-- The all-zero initial boundary state of `_parse_tt`. -/
def bounds0 : Bounds := ⟨0, 0, 0, 0, 0, 0, 0, 0, 0, 0⟩

/-- One step of the first pass of `_parse_tt`: the if/elif marker chain at
line index `ind`. -/
def stepBounds (b : Bounds) (ind : ℤ) (l : Line) : Bounds :=
  if isDeltaMarker l then { b with dists_start := ind + 1 }
  else if isDepthMarker l then { b with dists_end := ind - 1, depths_start := ind + 1 }
  else if isTimesMarker l then { b with depths_end := ind - 2, times_start := ind + 2 }
  else if isDtddMarker l then { b with times_end := ind - 2, dtdd_start := ind + 2 }
  else if isDtdhMarker l then { b with dtdd_end := ind - 2, dtdh_start := ind + 2 }
  else b

/-- First pass of `_parse_tt` over the remaining lines, starting at index
`ind`. -/
def boundsAux (ind : ℤ) (b : Bounds) : List Line → Bounds
  | [] => b
  | l :: ls => boundsAux (ind + 1) (stepBounds b ind l) ls

/-- The boundary indices computed by the first pass of `_parse_tt`,
including the unconditional final assignment `dtdh_end = ind - 4`. -/
def computeBounds (ls : List Line) : Bounds :=
  let b := boundsAux 0 bounds0 ls
  { b with dtdh_end := (ls.length : ℤ) - 4 }

/-- `ind in range(a, b + 1)` for a non-negative `ind` and integer bounds. -/
def inRange (i a b : ℤ) : Bool :=
  decide (a ≤ i ∧ i ≤ b)

/-- Parse failure modes of the modelled pipeline. -/
inductive PErr : Type where
  /-- `float(item)` raised `ValueError` on a non-numeric token. -/
  | floatErr
  /-- `np.array` raised on a ragged (inhomogeneous) list of rows. -/
  | raggedErr
  /-- one of the two NaN-mask `assert` statements failed. -/
  | assertErr
  /-- boolean-mask fancy indexing with mismatched lengths raised. -/
  | maskLenErr
  /-- degenerate input made the Delaunay triangulation fail. -/
  | qhullErr
  /-- `model, phase_name, _ = basename.split('.')` failed to unpack. -/
  | unpackErr
deriving DecidableEq, Repr

/-- `float(item)`: a numeric token yields its value, a word raises. -/
def floatTok : Tok → Except PErr ℚ
  | Tok.word _ => .error .floatErr
  | Tok.num q => .ok q

/-- `[float(item) for item in row]` (the `item != ''` filter of the source
is vacuous because `str.split()` never yields empty tokens). -/
def rowFloats (l : Line) : Except PErr (List ℚ) :=
  l.mapM floatTok

/-- Accumulator of the second pass of `_parse_tt`. -/
structure RawParse : Type where
  ecdists : List ℚ
  depths_km : List ℚ
  times : List (List ℚ)
  dtdd : List (List ℚ)
  dtdh : List (List ℚ)
deriving DecidableEq, Repr

/-- Second pass of `_parse_tt`: dispatch each line to the section whose
index range contains it (1-D sections extend, matrix sections append a
row), raising on the first non-numeric token of a claimed line. -/
def parseRows (ind : ℤ) (b : Bounds) : List Line → RawParse → Except PErr RawParse
  | [], acc => .ok acc
  | l :: ls, acc =>
    if inRange ind b.dists_start b.dists_end then do
      let r ← rowFloats l
      parseRows (ind + 1) b ls { acc with ecdists := acc.ecdists ++ r }
    else if inRange ind b.depths_start b.depths_end then do
      let r ← rowFloats l
      parseRows (ind + 1) b ls { acc with depths_km := acc.depths_km ++ r }
    else if inRange ind b.times_start b.times_end then do
      let r ← rowFloats l
      parseRows (ind + 1) b ls { acc with times := acc.times ++ [r] }
    else if inRange ind b.dtdd_start b.dtdd_end then do
      let r ← rowFloats l
      parseRows (ind + 1) b ls { acc with dtdd := acc.dtdd ++ [r] }
    else if inRange ind b.dtdh_start b.dtdh_end then do
      let r ← rowFloats l
      parseRows (ind + 1) b ls { acc with dtdh := acc.dtdh ++ [r] }
    else
      parseRows (ind + 1) b ls acc

/-- All rows have the length of the first row (`np.array` of a ragged list
of rows raises instead of producing a 2-D array). -/
def rectangular {α : Type} : List (List α) → Bool
  | [] => true
  | r :: rs => rs.all (fun x => decide (x.length = r.length))

/-- `grid[grid == -999.0] = np.nan`: the sentinel becomes the NaN cell. -/
def convGrid (g : List (List ℚ)) : List (List Cell) :=
  g.map (fun r => r.map (fun q => if q = (-999 : ℚ) then none else some q))

/-- `np.isnan` of a grid. -/
def maskOf (g : List (List Cell)) : List (List Bool) :=
  g.map (fun r => r.map Option.isNone)

/-- The numpy shape of a list-of-rows array: `[]` is the empty 1-D array
of shape `(0,)`, a non-empty list is 2-D. -/
def npShape {α : Type} : List (List α) → List ℕ
  | [] => [0]
  | r :: rs => [rs.length + 1, r.length]

/-- Two numpy dimensions are broadcast compatible. -/
def bcCompat (x y : ℕ) : Bool :=
  decide (x = y ∨ x = 1 ∨ y = 1)

/-- The broadcast of two compatible numpy dimensions. -/
def bcDim (x y : ℕ) : ℕ :=
  if x = 1 then y else x

/-- Entry `(i, j)` of a rectangular list-of-rows array, `false` padded. -/
def rowGet (g : List (List Bool)) (i j : ℕ) : Bool :=
  (g.getD i []).getD j false

/-- `np.all(A == B)` for two boolean arrays of shapes `(0,)` or `(n, c)`,
with numpy broadcasting: an empty broadcast result is vacuously `true`,
incompatible shapes yield an unconditionally failing comparison. -/
def broadcastAllEq (A B : List (List Bool)) : Bool :=
  match A, B with
  | [], [] => true
  | [], r :: _ => decide (r.length ≤ 1)
  | r :: _, [] => decide (r.length ≤ 1)
  | a :: as, b :: bs =>
    let n := as.length + 1
    let c := a.length
    let m := bs.length + 1
    let d := b.length
    if bcCompat n m && bcCompat c d then
      if c = 0 || d = 0 then true
      else
        (List.range (bcDim n m)).all fun i =>
          (List.range (bcDim c d)).all fun j =>
            rowGet (a :: as) (if n = 1 then 0 else i) (if c = 1 then 0 else j)
              = rowGet (b :: bs) (if m = 1 then 0 else i) (if d = 1 then 0 else j)
    else false

/-- The validated output of `Phase._parse_tt`: sample vectors plus the
three sentinel-converted grids. -/
structure ParsedTT : Type where
  ecdists : List ℚ
  depths_km : List ℚ
  times : List (List Cell)
  dtdd : List (List Cell)
  dtdh : List (List Cell)
deriving DecidableEq, Repr

/-- `Phase._parse_tt`: two passes over the lines, `np.array` conversion,
sentinel-to-NaN rewriting, and the two NaN-mask `assert` statements
(`np.all(np.isnan(times) == np.isnan(dtdd))` and the `dtdh` analogue). -/
def parse_tt (ls : List Line) : Except PErr ParsedTT :=
  match parseRows 0 (computeBounds ls) ls ⟨[], [], [], [], []⟩ with
  | .error e => .error e
  | .ok raw =>
    if rectangular raw.times && rectangular raw.dtdd && rectangular raw.dtdh then
      let t : ParsedTT :=
        ⟨raw.ecdists, raw.depths_km, convGrid raw.times, convGrid raw.dtdd, convGrid raw.dtdh⟩
      if broadcastAllEq (maskOf t.times) (maskOf t.dtdd) then
        if broadcastAllEq (maskOf t.times) (maskOf t.dtdh) then .ok t
        else .error .assertErr
      else .error .assertErr
    else .error .raggedErr


/-! ### Interpolator construction (`Phase.__init__`) -/

/-- `u.1 * v.2 - u.2 * v.1`, the planar cross product. -/
def cross2 (u v : Q2) : ℚ :=
  u.1 * v.2 - u.2 * v.1

/-- Componentwise difference of two points. -/
def sub2 (u v : Q2) : Q2 :=
  (u.1 - v.1, u.2 - v.2)

/-- `q` lies in the closed triangle `a b c` (with `a b c` affinely
independent), decided by the three sign tests on cross products. -/
def triContains (a b c q : Q2) : Bool :=
  let det := cross2 (sub2 b a) (sub2 c a)
  let s1 := cross2 (sub2 b a) (sub2 q a)
  let s2 := cross2 (sub2 c b) (sub2 q b)
  let s3 := cross2 (sub2 a c) (sub2 q c)
  decide (det ≠ 0 ∧ ((0 ≤ s1 ∧ 0 ≤ s2 ∧ 0 ≤ s3) ∨ (s1 ≤ 0 ∧ s2 ≤ 0 ∧ s3 ≤ 0)))

/-- Decidable inner-region test for the convex hull of `pts`: membership
in some nondegenerate triangle over `pts`. -/
def inHullB (pts : List Q2) (q : Q2) : Bool :=
  pts.any fun a => pts.any fun b => pts.any fun c => triContains a b c q

/-- The abstract in-domain interpolation kernel: given the sample points
and sample values, a value for a query point.  Modelled from the spec:
the C1-continuous Clough-Tocher piecewise-cubic interpolation performed
inside `scipy.interpolate.CloughTocher2DInterpolator` is external to the
repository, so its in-hull values are kept abstract. -/
abbrev CTOracle : Type := List Q2 → List Cell → Q2 → ℚ

/-- Modelled from the spec: evaluation of a constructed
`CloughTocher2DInterpolator(points, values, fill_value=fill)`.  Out-of-
domain policy per the spec: any query outside the convex hull of the
input samples returns the configured fill value exactly; in-hull queries
return the (abstract) interpolated value. -/
def CT2Deval (ct : CTOracle) (pts : List Q2) (vals : List Cell) (fill : ℚ) (q : Q2) : ℚ :=
  if inHullB pts q then ct pts vals q else fill

/-- `LARGE_VALUE = float(np.iinfo('i4').max)`. -/
def LARGE_VALUE : ℚ := 2147483647

/-- Fuel-driven floor base-2 logarithm of a natural number. -/
def log2fuel : ℕ → ℕ → ℕ
  | 0, _ => 0
  | fuel + 1, n => if 2 ≤ n then log2fuel fuel (n / 2) + 1 else 0

/-- `⌊log₂ n⌋` for `n ≥ 1`. -/
def natLog2 (n : ℕ) : ℕ :=
  log2fuel n n

/-- Fuel-driven ceiling base-2 logarithm of a natural number. -/
def clog2fuel : ℕ → ℕ → ℕ
  | 0, _ => 0
  | fuel + 1, n => if 2 ≤ n then clog2fuel fuel ((n + 1) / 2) + 1 else 0

/-- `⌈log₂ n⌉` for `n ≥ 1`. -/
def natClog2 (n : ℕ) : ℕ :=
  clog2fuel n n

/-- The greatest `e` with `2 ^ e ≤ a`, for a positive rational `a`. -/
def ratLog2 (a : ℚ) : ℤ :=
  if 1 ≤ a then (natLog2 (a.num.toNat / a.den) : ℤ)
  else -(natClog2 ((a.den + a.num.toNat - 1) / a.num.toNat) : ℤ)

/-- Round-to-nearest, ties to even, of a rational to an integer. -/
def rne (m : ℚ) : ℤ :=
  let f := ⌊m⌋
  if m - f < 1 / 2 then f
  else if 1 / 2 < m - f then f + 1
  else if 2 ∣ f then f else f + 1

/-- The float32 value nearest a rational (round to nearest, ties to
even, 24-bit significand; models the `dtype='f4'` casts of the batched
query path for values in the normal range of float32). -/
def roundF32 (q : ℚ) : ℚ :=
  if q = 0 then 0
  else
    let a : ℚ := if q < 0 then -q else q
    let e : ℤ := ratLog2 a
    let r : ℚ := (rne (a * (2 : ℚ) ^ ((23 : ℤ) - e)) : ℚ) * (2 : ℚ) ^ (e - (23 : ℤ))
    if q < 0 then -r else r

/-- `np.meshgrid(ecdists, depths_km, indexing='ij')` followed by
`np.vstack([xg.flatten(), yg.flatten()]).T`: the row-major grid of
(distance, depth) points. -/
def meshPoints (xs ys : List ℚ) : List Q2 :=
  xs.flatMap fun x => ys.map fun y => (x, y)

/-- Boolean-mask fancy indexing `arr[vidx]`. -/
def maskSel {α : Type} (mask : List Bool) (l : List α) : List α :=
  (List.zip mask l).filterMap fun p => if p.1 then some p.2 else none

/-- `pts` contains three affinely independent points (otherwise the
Delaunay triangulation underlying the interpolator cannot be built and
scipy raises a `QhullError`). -/
def hasIndepTriple (pts : List Q2) : Bool :=
  pts.any fun a => pts.any fun b => pts.any fun c =>
    decide (cross2 (sub2 b a) (sub2 c a) ≠ 0)

/-- The state of a constructed `Phase`: the parsed table data, the fill
value, and the sample points/values of the three interpolators
(`points[vidx]` with the value arrays `times/dtdd/dtdh.flatten()[vidx]`,
where `vidx = ~np.isnan(times.flatten())`). -/
structure PhaseS : Type where
  ecdists : List ℚ
  depths_km : List ℚ
  times : List (List Cell)
  dtdd : List (List Cell)
  dtdh : List (List Cell)
  fill_value : ℚ
  pts : List Q2
  tvals : List Cell
  ddvals : List Cell
  dhvals : List Cell
deriving DecidableEq, Repr

/-- The interpolator-construction part of `Phase.__init__` (after
`_parse_tt`): meshgrid points, the valid-cell mask taken from the times
grid, boolean-mask selection, and the three interpolators.  Boolean-mask
indexing raises when the mask length does not match the indexed array;
degenerate point sets make the triangulation raise. -/
def mkPhase (fill : ℚ) (t : ParsedTT) : Except PErr PhaseS :=
  let points := meshPoints t.ecdists t.depths_km
  let tf := t.times.flatten
  let ddf := t.dtdd.flatten
  let dhf := t.dtdh.flatten
  if tf.length = points.length ∧ tf.length = ddf.length ∧ tf.length = dhf.length then
    let vidx := tf.map Option.isSome
    let pts := maskSel vidx points
    if hasIndepTriple pts then
      .ok ⟨t.ecdists, t.depths_km, t.times, t.dtdd, t.dtdh, fill,
           pts, maskSel vidx tf, maskSel vidx ddf, maskSel vidx dhf⟩
    else .error .qhullErr
  else .error .maskLenErr

/-- `Phase(tt_fn, fill_value)`: parse then build interpolators. -/
def mkPhaseOfFile (fill : ℚ) (ls : List Line) : Except PErr PhaseS := do
  let t ← parse_tt ls
  mkPhase fill t

/-- Evaluation of the `times` interpolator of a phase. -/
def PhaseS.times_itp (ph : PhaseS) (ct : CTOracle) (q : Q2) : ℚ :=
  CT2Deval ct ph.pts ph.tvals ph.fill_value q

/-- Evaluation of the `dtdd` interpolator of a phase. -/
def PhaseS.dtdd_itp (ph : PhaseS) (ct : CTOracle) (q : Q2) : ℚ :=
  CT2Deval ct ph.pts ph.ddvals ph.fill_value q

/-- Evaluation of the `dtdh` interpolator of a phase. -/
def PhaseS.dtdh_itp (ph : PhaseS) (ct : CTOracle) (q : Q2) : ℚ :=
  CT2Deval ct ph.pts ph.dhvals ph.fill_value q

/-! ### Registry (`TTInterpolator`) -/

/-- A Python phase label: a byte string (`str.encode(phase_name)`) or a
text string.  As in Python, `bytes` and `str` never compare equal, even
with the same characters. -/
inductive PyKey : Type where
  | bytes (s : String)
  | str (s : String)
deriving DecidableEq, Repr

/-- First-match association-list lookup (Python `dict` access). -/
def look {α β : Type} [DecidableEq α] : List (α × β) → α → Option β
  | [], _ => none
  | (k, v) :: rest, key => if k = key then some v else look rest key

/-- Association-list insert with `dict` semantics: overwrite in place,
else append. -/
def alInsert {α β : Type} [DecidableEq α] : List (α × β) → α → β → List (α × β)
  | [], k, v => [(k, v)]
  | (k0, v0) :: rest, k, v =>
    if k0 = k then (k0, v) :: rest else (k0, v0) :: alInsert rest k v

/-- `self.phases`: a mapping from model name to a mapping from phase key
to `Phase`. -/
abbrev Registry : Type := List (String × List (PyKey × PhaseS))

/-- `self.phases[model][phase_name] = p` on the nested defaultdict. -/
def alInsert2 : Registry → String → PyKey → PhaseS → Registry
  | [], model, k, ph => [(model, [(k, ph)])]
  | (m0, ks) :: rest, model, k, ph =>
    if m0 = model then (m0, alInsert ks k ph) :: rest
    else (m0, ks) :: alInsert2 rest model k ph

/-- The phase map consulted by a query: `self.phases[model]` as a value
(the empty map when the model is absent). -/
def mLookup (reg : Registry) (model : String) : List (PyKey × PhaseS) :=
  (look reg model).getD []

/-- The state effect of `self.phases[model]` on the defaultdict: reading
a missing model key inserts an empty phase map for it. -/
def ddTouch (reg : Registry) (model : String) : Registry :=
  if (look reg model).isSome then reg else reg ++ [(model, [])]

/-- Helper for `splitDot`: accumulate the current part (reversed) and the
finished parts. -/
def splitDotAux : List Char → List Char → List String → List String
  | [], cur, parts => parts ++ [String.mk cur.reverse]
  | c :: cs, cur, parts =>
    if c = '.' then splitDotAux cs [] (parts ++ [String.mk cur.reverse])
    else splitDotAux cs (c :: cur) parts

/-- Python `s.split('.')`. -/
def splitDot (s : String) : List String :=
  splitDotAux s.data [] []

/-- `TTInterpolator.__init__` over a list of (basename, contents) table
files (directory discovery is out of scope): split each basename on '.',
encode the phase name to a byte-string key, parse and build the `Phase`,
and register it.  Any per-file failure propagates (there is no handler
in the constructor). -/
def ttInitAux : List (String × List Line) → Registry → Except PErr Registry
  | [], reg => .ok reg
  | (fn, content) :: rest, reg =>
    match splitDot fn with
    | [model, phase_name, _ext] => do
      let p ← mkPhaseOfFile LARGE_VALUE content
      ttInitAux rest (alInsert2 reg model (PyKey.bytes phase_name) p)
    | _ => .error .unpackErr

/-- `TTInterpolator.__init__` starting from the empty registry. -/
def ttInit (files : List (String × List Line)) : Except PErr Registry :=
  ttInitAux files []

/-- Query-time failure: the sole `raise ValueError('Either model {} or
phase not found..')` of the `except` blocks, carrying only the model. -/
inductive QErr : Type where
  | eitherModelOrPhase (model : String)
deriving DecidableEq, Repr

/-- The scalar-branch value of `get_tt`/`get_dtdd`/`get_dtdh`:
`result = self.fill_value`, overwritten by the interpolator value when
the phase key is present in `self.phases[model]`.  `sel` selects which
of the three value arrays the method uses. -/
def scalarVal (ct : CTOracle) (sel : PhaseS → List Cell) (reg : Registry)
    (phase : PyKey) (e d : ℚ) (model : String) : ℚ :=
  match look (mLookup reg model) phase with
  | some ph => CT2Deval ct ph.pts (sel ph) ph.fill_value (e, d)
  | none => LARGE_VALUE

/-- The scalar branch of a query method: it cannot raise; it returns the
value and the (possibly defaultdict-extended) registry. -/
def getQtyScalar (ct : CTOracle) (sel : PhaseS → List Cell) (reg : Registry)
    (phase : PyKey) (e d : ℚ) (model : String) : Except QErr (ℚ × Registry) :=
  .ok (scalarVal ct sel reg phase e d model, ddTouch reg model)

/-- One iteration of the batched loop body, for a registered `(cphase,
Phase)` entry: `indices = np.argwhere(cphase == phase).flatten()`; when
non-empty, `result[indices] = interp(ecdist[indices], depth_km[indices])`
with the float32 cast of the `dtype='f4'` result array; fancy indexing
out of bounds raises (caught and re-raised as the generic `ValueError`). -/
def applyEntry (ct : CTOracle) (sel : PhaseS → List Cell) (model : String)
    (phases : List PyKey) (ecd dep : List ℚ) (res : List ℚ)
    (ent : PyKey × PhaseS) : Except QErr (List ℚ) :=
  let idxs := (List.range phases.length).filter
    fun i => decide (phases.getD i (PyKey.str ("")) = ent.1)
  if idxs.isEmpty then .ok res
  else if idxs.all (fun i => decide (i < ecd.length))
       && idxs.all (fun i => decide (i < dep.length)) then
    .ok (idxs.foldl (fun r i =>
      r.set i (roundF32 (CT2Deval ct ent.2.pts (sel ent.2) ent.2.fill_value
        (ecd.getD i 0, dep.getD i 0)))) res)
  else .error (.eitherModelOrPhase model)

/-- The batched branch of a query method: a fill-initialised `f4` result
array (`np.ones(len(phase), dtype='f4') * self.fill_value`), one loop
iteration per registered phase of the model, and the defaultdict touch
of `self.phases[model]`. -/
def getQtyBatch (ct : CTOracle) (sel : PhaseS → List Cell) (reg : Registry)
    (phases : List PyKey) (ecd dep : List ℚ) (model : String) :
    Except QErr (List ℚ × Registry) :=
  match (mLookup reg model).foldlM (applyEntry ct sel model phases ecd dep)
      (List.replicate phases.length (roundF32 LARGE_VALUE)) with
  | .ok res => .ok (res, ddTouch reg model)
  | .error e => .error e

/-- `get_tt` with a scalar phase label. -/
def get_tt_scalar (ct : CTOracle) (reg : Registry) (phase : PyKey) (e d : ℚ)
    (model : String) : Except QErr (ℚ × Registry) :=
  getQtyScalar ct (fun p => p.tvals) reg phase e d model

/-- `get_dtdd` with a scalar phase label. -/
def get_dtdd_scalar (ct : CTOracle) (reg : Registry) (phase : PyKey) (e d : ℚ)
    (model : String) : Except QErr (ℚ × Registry) :=
  getQtyScalar ct (fun p => p.ddvals) reg phase e d model

/-- `get_dtdh` with a scalar phase label. -/
def get_dtdh_scalar (ct : CTOracle) (reg : Registry) (phase : PyKey) (e d : ℚ)
    (model : String) : Except QErr (ℚ × Registry) :=
  getQtyScalar ct (fun p => p.dhvals) reg phase e d model

/-- `get_tt` with an array phase label. -/
def get_tt_batch (ct : CTOracle) (reg : Registry) (phases : List PyKey)
    (ecd dep : List ℚ) (model : String) : Except QErr (List ℚ × Registry) :=
  getQtyBatch ct (fun p => p.tvals) reg phases ecd dep model

/-- `get_dtdd` with an array phase label. -/
def get_dtdd_batch (ct : CTOracle) (reg : Registry) (phases : List PyKey)
    (ecd dep : List ℚ) (model : String) : Except QErr (List ℚ × Registry) :=
  getQtyBatch ct (fun p => p.ddvals) reg phases ecd dep model

/-- `get_dtdh` with an array phase label. -/
def get_dtdh_batch (ct : CTOracle) (reg : Registry) (phases : List PyKey)
    (ecd dep : List ℚ) (model : String) : Except QErr (List ℚ × Registry) :=
  getQtyBatch ct (fun p => p.dhvals) reg phases ecd dep model

/-! ### Concrete fixtures -/

/-- A numeric data line. -/
def nrow (qs : List ℚ) : Line :=
  qs.map Tok.num

/-- The `# delta samples` marker line. -/
def mDelta : Line :=
  [Tok.word ("#"), Tok.word ("delta"), Tok.word ("samples")]

/-- The `# depth samples` marker line. -/
def mDepth : Line :=
  [Tok.word ("#"), Tok.word ("depth"), Tok.word ("samples")]

/-- The travel-times marker line. -/
def mTimes : Line :=
  [Tok.word ("#"), Tok.word ("travel"), Tok.word ("times"), Tok.word ("(rows"),
   Tok.word ("-"), Tok.word ("delta,"), Tok.word ("columns"), Tok.word ("-"),
   Tok.word ("depth)")]

/-- The dtdd marker line. -/
def mDtdd : Line :=
  [Tok.word ("#"), Tok.word ("dtdd"), Tok.word ("(rows"),
   Tok.word ("-"), Tok.word ("delta,"), Tok.word ("columns"), Tok.word ("-"),
   Tok.word ("depth)")]

/-- The dtdh marker line. -/
def mDtdh : Line :=
  [Tok.word ("#"), Tok.word ("dtdh"), Tok.word ("(rows"),
   Tok.word ("-"), Tok.word ("delta,"), Tok.word ("columns"), Tok.word ("-"),
   Tok.word ("depth)")]

/-- A well-formed 22-line table file with a 2x2 grid: distances 0 and 10
degrees, depths 0 and 50 km, no undefined cells. -/
def wellFile : List Line :=
  [mDelta, nrow [0, 10], mDepth, nrow [0, 50], [],
   mTimes, [], nrow [100, 200], nrow [300, 400], [],
   mDtdd, [], nrow [1, 2], nrow [3, 4], [],
   mDtdh, [], nrow [5, 6], nrow [7, 8], [], [], []]

/-- The table parsed from `wellFile`. -/
def tWell : ParsedTT :=
  ⟨[0, 10], [0, 50],
   [[some 100, some 200], [some 300, some 400]],
   [[some 1, some 2], [some 3, some 4]],
   [[some 5, some 6], [some 7, some 8]]⟩

/-- A four-line file missing the travel-times, dtdd and dtdh markers; its
first line lands in the zero-defaulted times range and its third line in
the distance range. -/
def file4 : List Line :=
  [nrow [3/2], mDelta, nrow [29/4], mDepth]

/-- `file4` with only its third line (an index among the last three of
the file) changed. -/
def file4b : List Line :=
  [nrow [3/2], mDelta, nrow [33/4], mDepth]

/-- A 12-line file whose times grid is a single `-999.0` sentinel cell
while the dtdd and dtdh sections parse as empty grids. -/
def file12 : List Line :=
  [mDelta, nrow [2], mDepth, nrow [3], [],
   mTimes, [], nrow [-999], [],
   mDtdd, [], mDtdh]

/-- An interpolation oracle that returns 0 everywhere in the hull. -/
def ct0 : CTOracle :=
  fun _ _ _ => 0

/-- An interpolation oracle whose value `2 ^ 24 + 1` is not a float32. -/
def ctK : CTOracle :=
  fun _ _ _ => 16777217

/-- The registry built from the single table file `ak135.P.tab` with the
contents of `wellFile`. -/
def regP : Registry :=
  match ttInit [("ak135.P.tab", wellFile)] with
  | .ok r => r
  | .error _ => []

/-- The phase registered in `regP` under model `ak135`, key `b'P'`. -/
def phP : PhaseS :=
  ⟨[0, 10], [0, 50],
   [[some 100, some 200], [some 300, some 400]],
   [[some 1, some 2], [some 3, some 4]],
   [[some 5, some 6], [some 7, some 8]],
   LARGE_VALUE,
   [(0, 0), (0, 50), (10, 0), (10, 50)],
   [some 100, some 200, some 300, some 400],
   [some 1, some 2, some 3, some 4],
   [some 5, some 6, some 7, some 8]⟩

/-- `regP` explicitly. -/
lemma regP_eq : regP = [("ak135", [(PyKey.bytes ("P"), phP)])] := by
  decide

/-- `ttInit` succeeds on the fixture file and produces `regP`. -/
lemma ttInit_wellFile : ttInit [("ak135.P.tab", wellFile)] = .ok regP := by
  decide

/-- `parse_tt` succeeds on `wellFile` and produces `tWell`. -/
lemma parse_tt_wellFile : parse_tt wellFile = .ok tWell := by
  decide

/-! ### Helper lemmas: boundary computation -/

/-- A non-marker line leaves the boundary state untouched. -/
lemma stepBounds_of_not_marker {l : Line} (h : isMarkerLine l = false) (b : Bounds) (ind : ℤ) :
    stepBounds b ind l = b := by
  unfold isMarkerLine at h
  simp only [Bool.or_eq_false_iff] at h
  unfold stepBounds
  rw [h.1.1.1.1, h.1.1.1.2, h.1.1.2, h.1.2, h.2]
  simp

/-- The first pass leaves the boundary state untouched on a marker-free
file. -/
lemma boundsAux_of_no_marker :
    ∀ (L : List Line), (∀ l ∈ L, isMarkerLine l = false) → ∀ (ind : ℤ) (b : Bounds),
    boundsAux ind b L = b := by
  intro L
  induction L with
  | nil => intro _ ind b; rfl
  | cons l ls ih =>
    intro h ind b
    have hl : isMarkerLine l = false := h l (List.mem_cons_self l ls)
    have hls : ∀ x ∈ ls, isMarkerLine x = false := fun x hx => h x (List.mem_cons_of_mem l hx)
    unfold boundsAux
    rw [stepBounds_of_not_marker hl]
    exact ih hls (ind + 1) b

/-- C2 (amended): when every required section marker is missing, the
parser keeps all boundary indices at their zero defaults (with the
unconditional `dtdh_end = ind - 4`) and proceeds; it does not fail on
that account. -/
theorem c2_bounds_default_zero_amended (L : List Line)
    (h : ∀ l ∈ L, isMarkerLine l = false) :
    computeBounds L = { bounds0 with dtdh_end := (L.length : ℤ) - 4 } := by
  unfold computeBounds
  rw [boundsAux_of_no_marker L h 0 bounds0]

/-- Witness for the amended C2 at a one-line marker-free file. -/
theorem c2_bounds_default_zero_amended_witness :
    computeBounds [nrow [1]] = { bounds0 with dtdh_end := (([nrow [1]] : List Line).length : ℤ) - 4 } :=
  c2_bounds_default_zero_amended [nrow [1]] (by decide)

/-- C2 (counterexample): the empty file and `file4` are files with
required section markers missing, yet `_parse_tt` succeeds on both with
boundary indices defaulted to zero; in `file4` the zero-defaulted times
range even captures the first line as a data row. -/
theorem c2_missing_marker_parse_succeeds :
    parse_tt [] = .ok ⟨[], [], [], [], []⟩ ∧
    computeBounds [] = ⟨0, 0, 0, 0, 0, 0, 0, 0, 0, -4⟩ ∧
    parse_tt file4 = .ok ⟨[29/4], [], [[some (3/2)]], [], []⟩ ∧
    (computeBounds file4).times_start = 0 ∧
    (computeBounds file4).times_end = 0 := by
  refine ⟨by decide, by decide, by decide, by decide, by decide⟩

/-- C10 (amended): the first pass always sets `dtdh_end` to the line
count minus four, so an index inside the dtdh section range is at least
three lines before the end of the file; the last three lines are never
consumed as dtdh data rows. -/
theorem c10_dtdh_ends_four_before_eof_amended (L : List Line) :
    (computeBounds L).dtdh_end = (L.length : ℤ) - 4 ∧
    (∀ i : ℤ, inRange i (computeBounds L).dtdh_start (computeBounds L).dtdh_end = true →
      i + 3 < (L.length : ℤ)) := by
  constructor
  · unfold computeBounds
    rfl
  · intro i hi
    unfold inRange at hi
    rw [decide_eq_true_eq] at hi
    have h2 : i ≤ (computeBounds L).dtdh_end := hi.2
    have h3 : (computeBounds L).dtdh_end = (L.length : ℤ) - 4 := by
      unfold computeBounds
      rfl
    omega

/-- Witness for the amended C10 at `wellFile`, index 17 (inside the dtdh
section). -/
theorem c10_dtdh_ends_four_before_eof_amended_witness :
    (computeBounds wellFile).dtdh_end = ((wellFile.length : ℤ)) - 4 ∧
    (17 : ℤ) + 3 < (wellFile.length : ℤ) :=
  ⟨(c10_dtdh_ends_four_before_eof_amended wellFile).1,
   (c10_dtdh_ends_four_before_eof_amended wellFile).2 17 (by decide)⟩

/-- C10 (counterexample): `file4` and `file4b` differ only in their
third line, one of the last three physical lines of the file, yet they
parse to different data (the changed line is consumed as a distance
sample), so the last three lines are not immune to being parsed as data. -/
theorem c10_last_lines_affect_parse :
    parse_tt file4 = .ok ⟨[29/4], [], [[some (3/2)]], [], []⟩ ∧
    parse_tt file4b = .ok ⟨[33/4], [], [[some (3/2)]], [], []⟩ ∧
    parse_tt file4 ≠ parse_tt file4b := by
  refine ⟨by decide, by decide, by decide⟩

/-! ### Scalar query path (C1) -/

/-- C1 (amended): a scalar query for a `(model, phase)` pair with no
registered `PhaseModel` does not raise: all three getters return the
scalar fill value `LARGE_VALUE` as an ordinary result (together with the
defaultdict-extended registry). -/
theorem c1_scalar_unknown_fill_amended (ct : CTOracle) (reg : Registry) (phase : PyKey)
    (e d : ℚ) (model : String)
    (h : look (mLookup reg model) phase = none) :
    get_tt_scalar ct reg phase e d model = .ok (LARGE_VALUE, ddTouch reg model) ∧
    get_dtdd_scalar ct reg phase e d model = .ok (LARGE_VALUE, ddTouch reg model) ∧
    get_dtdh_scalar ct reg phase e d model = .ok (LARGE_VALUE, ddTouch reg model) := by
  unfold get_tt_scalar get_dtdd_scalar get_dtdh_scalar getQtyScalar scalarVal
  rw [h]
  exact ⟨rfl, rfl, rfl⟩

/-- Witness for the amended C1: phase `b'S'` is not registered in `regP`,
and all three scalar getters return the fill value. -/
theorem c1_scalar_unknown_fill_amended_witness :
    get_tt_scalar ct0 regP (PyKey.bytes ("S")) 1 2 ("ak135") = .ok (LARGE_VALUE, ddTouch regP ("ak135")) ∧
    get_dtdd_scalar ct0 regP (PyKey.bytes ("S")) 1 2 ("ak135") = .ok (LARGE_VALUE, ddTouch regP ("ak135")) ∧
    get_dtdh_scalar ct0 regP (PyKey.bytes ("S")) 1 2 ("ak135") = .ok (LARGE_VALUE, ddTouch regP ("ak135")) :=
  c1_scalar_unknown_fill_amended ct0 regP (PyKey.bytes ("S")) 1 2 ("ak135") (by decide)

/-- C1 (counterexample): in the registry built from `ak135.P.tab`, the
scalar queries for the unregistered phase `b'S'` return the fill value
`2147483647` as an ordinary `.ok` result instead of raising any error. -/
theorem c1_scalar_unknown_returns_value :
    get_tt_scalar ct0 regP (PyKey.bytes ("S")) 1 2 ("ak135") = .ok ((2147483647 : ℚ), regP) ∧
    get_dtdd_scalar ct0 regP (PyKey.bytes ("S")) 1 2 ("ak135") = .ok ((2147483647 : ℚ), regP) ∧
    get_dtdh_scalar ct0 regP (PyKey.bytes ("S")) 1 2 ("ak135") = .ok ((2147483647 : ℚ), regP) := by
  refine ⟨by decide, by decide, by decide⟩

/-! ### NaN-mask invariant (C3) -/

/-- Mapping every cell preserves rectangularity. -/
lemma rectangular_mapmap {α β : Type} (h : α → β) (g : List (List α)) :
    rectangular (g.map (fun r => r.map h)) = rectangular g := by
  cases g with
  | nil => rfl
  | cons r rs =>
    unfold rectangular
    simp only [List.map_cons]
    induction rs with
    | nil => rfl
    | cons x xs ih =>
      simp only [List.map_cons, List.all_cons, List.length_map] at ih ⊢
      rw [ih]

/-- `maskOf` preserves rectangularity. -/
lemma rect_maskOf (G : List (List Cell)) : rectangular (maskOf G) = rectangular G := by
  unfold maskOf
  exact rectangular_mapmap _ G

/-- `convGrid` preserves rectangularity. -/
lemma rect_convGrid (g : List (List ℚ)) : rectangular (convGrid g) = rectangular g := by
  unfold convGrid
  exact rectangular_mapmap _ g

/-- `maskOf` preserves the numpy shape. -/
lemma npShape_maskOf (G : List (List Cell)) : npShape (maskOf G) = npShape G := by
  cases G with
  | nil => rfl
  | cons r rs => simp [npShape, maskOf]

/-- Entries beyond the row count of a boolean grid read as `false`. -/
lemma rowGet_of_row_ge {G : List (List Bool)} {i : ℕ} (h : G.length ≤ i) (j : ℕ) :
    rowGet G i j = false := by
  unfold rowGet
  rw [List.getD_eq_getElem?_getD G i [], List.getElem?_eq_none h]
  rfl

/-- Entries beyond every row length of a boolean grid read as `false`. -/
lemma rowGet_of_col_ge {G : List (List Bool)} {j : ℕ} (h : ∀ r ∈ G, r.length ≤ j) (i : ℕ) :
    rowGet G i j = false := by
  unfold rowGet
  rw [List.getD_eq_getElem?_getD G i []]
  cases hG : G[i]? with
  | none => rfl
  | some r =>
    have hm : r ∈ G := List.getElem?_mem hG
    simp only [Option.getD_some]
    rw [List.getD_eq_getElem?_getD r j false, List.getElem?_eq_none (h r hm)]
    rfl

/-- In a broadcast-compatible comparison of equal-shaped grids with a
non-empty row type, the elementwise condition extracted from
`broadcastAllEq`. -/
lemma broadcastAllEq_elem {a b : List Bool} {as bs : List (List Bool)}
    (hn : as.length = bs.length) (hc : a.length = b.length)
    (hb : broadcastAllEq (a :: as) (b :: bs) = true) (hc0 : a.length ≠ 0) :
    ∀ i < as.length + 1, ∀ j < a.length,
      rowGet (a :: as) i j = rowGet (b :: bs) i j := by
  intro i hi j hj
  unfold broadcastAllEq at hb
  simp only [hn, hc] at hb
  have hcompat : (bcCompat (bs.length + 1) (bs.length + 1) && bcCompat b.length b.length) = true := by
    simp [bcCompat]
  rw [hcompat, if_pos rfl] at hb
  have hc0' : b.length ≠ 0 := by omega
  rw [if_neg (by simp [hc0'])] at hb
  rw [List.all_eq_true] at hb
  have hbD : bcDim (bs.length + 1) (bs.length + 1) = bs.length + 1 := by
    unfold bcDim
    split <;> omega
  have hcD : bcDim b.length b.length = b.length := by
    unfold bcDim
    split <;> omega
  have hi' : i ∈ List.range (bcDim (bs.length + 1) (bs.length + 1)) := by
    rw [hbD, List.mem_range]
    omega
  have hrow := hb i hi'
  rw [List.all_eq_true] at hrow
  have hj' : j ∈ List.range (bcDim b.length b.length) := by
    rw [hcD, List.mem_range]
    omega
  have hcell := hrow j hj'
  rw [decide_eq_true_eq] at hcell
  have hif1 : (if bs.length + 1 = 1 then 0 else i) = i := by
    split <;> omega
  have hif2 : (if b.length = 1 then 0 else j) = j := by
    split <;> omega
  rw [hif1, hif2] at hcell
  exact hcell

/-- For rectangular grids of equal numpy shape, a true `broadcastAllEq`
comparison forces the grids to agree entrywise. -/
lemma rowGet_eq_of_shape_bcast {A B : List (List Bool)}
    (hA : rectangular A = true) (hB : rectangular B = true)
    (hs : npShape A = npShape B) (hb : broadcastAllEq A B = true) (i j : ℕ) :
    rowGet A i j = rowGet B i j := by
  cases A with
  | nil =>
    cases B with
    | nil => rfl
    | cons b bs => simp [npShape] at hs
  | cons a as =>
    cases B with
    | nil => simp [npShape] at hs
    | cons b bs =>
      simp only [npShape, List.cons.injEq, and_true] at hs
      obtain ⟨hn, hc⟩ := hs
      have hn' : as.length = bs.length := by omega
      have hrectA : ∀ r ∈ (a :: as), r.length = a.length := by
        intro r hr
        rcases List.mem_cons.mp hr with h | h
        · rw [h]
        · have := (List.all_eq_true.mp hA) r h
          rw [decide_eq_true_eq] at this
          exact this
      have hrectB : ∀ r ∈ (b :: bs), r.length = b.length := by
        intro r hr
        rcases List.mem_cons.mp hr with h | h
        · rw [h]
        · have := (List.all_eq_true.mp hB) r h
          rw [decide_eq_true_eq] at this
          exact this
      by_cases hc0 : a.length = 0
      · have hzA : ∀ r ∈ (a :: as), r.length ≤ j := fun r hr => by
          rw [hrectA r hr, hc0]; omega
        have hzB : ∀ r ∈ (b :: bs), r.length ≤ j := fun r hr => by
          rw [hrectB r hr, ← hc, hc0]; omega
        rw [rowGet_of_col_ge hzA, rowGet_of_col_ge hzB]
      · by_cases hrow : i < as.length + 1
        · by_cases hcol : j < a.length
          · exact broadcastAllEq_elem hn' hc hb hc0 i hrow j hcol
          · have hzA : ∀ r ∈ (a :: as), r.length ≤ j := fun r hr => by
              rw [hrectA r hr]; omega
            have hzB : ∀ r ∈ (b :: bs), r.length ≤ j := fun r hr => by
              rw [hrectB r hr, ← hc]; omega
            rw [rowGet_of_col_ge hzA, rowGet_of_col_ge hzB]
        · have hgB : (b :: bs).length ≤ i := by
            simp only [List.length_cons]
            omega
          have hgA : (a :: as).length ≤ i := by
            simp only [List.length_cons]
            omega
          rw [rowGet_of_row_ge hgA, rowGet_of_row_ge hgB]

/-- The success facts of `parse_tt`: the parsed grids come from a
rectangular raw parse and both NaN-mask assertions held. -/
lemma parse_tt_ok_facts {L : List Line} {t : ParsedTT} (hp : parse_tt L = .ok t) :
    rectangular t.times = true ∧ rectangular t.dtdd = true ∧ rectangular t.dtdh = true ∧
    broadcastAllEq (maskOf t.times) (maskOf t.dtdd) = true ∧
    broadcastAllEq (maskOf t.times) (maskOf t.dtdh) = true := by
  unfold parse_tt at hp
  cases hraw : parseRows 0 (computeBounds L) L ⟨[], [], [], [], []⟩ with
  | error e =>
    rw [hraw] at hp
    exact absurd hp (by simp)
  | ok raw =>
    rw [hraw] at hp
    dsimp only at hp
    by_cases h1 : (rectangular raw.times && rectangular raw.dtdd && rectangular raw.dtdh) = true
    · rw [if_pos h1] at hp
      by_cases h2 : broadcastAllEq (maskOf (convGrid raw.times)) (maskOf (convGrid raw.dtdd)) = true
      · rw [if_pos h2] at hp
        by_cases h3 : broadcastAllEq (maskOf (convGrid raw.times)) (maskOf (convGrid raw.dtdh)) = true
        · rw [if_pos h3] at hp
          have ht : t = ⟨raw.ecdists, raw.depths_km, convGrid raw.times, convGrid raw.dtdd,
              convGrid raw.dtdh⟩ := by
            cases hp
            rfl
          subst ht
          simp only [Bool.and_eq_true] at h1
          exact ⟨by rw [rect_convGrid]; exact h1.1.1,
                 by rw [rect_convGrid]; exact h1.1.2,
                 by rw [rect_convGrid]; exact h1.2, h2, h3⟩
        · rw [if_neg h3] at hp
          exact absurd hp (by simp)
      · rw [if_neg h2] at hp
        exact absurd hp (by simp)
    · rw [if_neg h1] at hp
      exact absurd hp (by simp)

/-- C3 (amended): a successful `_parse_tt` implies that both broadcast
NaN-mask assertions held; when a pair of grids actually has the same
(rectangular) numpy shape this forces their undefined-cell indicator
functions to agree everywhere, with no repair of the grids.  (The
broadcast comparison is vacuous for shape-degenerate pairs, so success
with differing undefined-cell sets is possible, and the failing
assertion is a bare `AssertionError` that does not identify the file.) -/
theorem c3_mask_invariant_amended (L : List Line) (t : ParsedTT)
    (hp : parse_tt L = .ok t) :
    broadcastAllEq (maskOf t.times) (maskOf t.dtdd) = true ∧
    broadcastAllEq (maskOf t.times) (maskOf t.dtdh) = true ∧
    (npShape t.times = npShape t.dtdd →
      ∀ i j, rowGet (maskOf t.times) i j = rowGet (maskOf t.dtdd) i j) ∧
    (npShape t.times = npShape t.dtdh →
      ∀ i j, rowGet (maskOf t.times) i j = rowGet (maskOf t.dtdh) i j) := by
  obtain ⟨h1, h2, h3, h4, h5⟩ := parse_tt_ok_facts hp
  refine ⟨h4, h5, ?_, ?_⟩
  · intro hs i j
    exact rowGet_eq_of_shape_bcast (by rw [rect_maskOf]; exact h1)
      (by rw [rect_maskOf]; exact h2)
      (by rw [npShape_maskOf, npShape_maskOf]; exact hs) h4 i j
  · intro hs i j
    exact rowGet_eq_of_shape_bcast (by rw [rect_maskOf]; exact h1)
      (by rw [rect_maskOf]; exact h3)
      (by rw [npShape_maskOf, npShape_maskOf]; exact hs) h5 i j

/-- Witness for the amended C3 at the well-formed fixture file. -/
theorem c3_mask_invariant_amended_witness :
    broadcastAllEq (maskOf tWell.times) (maskOf tWell.dtdd) = true ∧
    rowGet (maskOf tWell.times) 0 0 = rowGet (maskOf tWell.dtdd) 0 0 :=
  ⟨(c3_mask_invariant_amended wellFile tWell (by decide)).1,
   (c3_mask_invariant_amended wellFile tWell (by decide)).2.2.1 (by decide) 0 0⟩

/-- C3 (counterexample): `file12` parses successfully although the set
of undefined cells of its times grid (`{(0, 0)}`) differs from the set
of undefined cells of its dtdd grid (empty): the numpy broadcast makes
the `assert` vacuously true when a derivative grid parses as empty. -/
theorem c3_mask_mismatch_parse_succeeds :
    parse_tt file12 = .ok ⟨[2], [3], [[none]], [], []⟩ ∧
    maskOf [[(none : Cell)]] = [[true]] ∧
    maskOf ([] : List (List Cell)) = [] ∧
    rowGet [[true]] 0 0 = true ∧
    rowGet [] 0 0 = false := by
  refine ⟨by decide, by decide, by decide, by decide, by decide⟩

/-! ### Batched query path: helper lemmas -/

/-- Association-list lookup misses keys absent from the key list. -/
lemma look_eq_none_of_not_mem {α β : Type} [DecidableEq α] {l : List (α × β)} {k : α}
    (h : k ∉ l.map Prod.fst) : look l k = none := by
  induction l with
  | nil => rfl
  | cons e rest ih =>
    simp only [List.map_cons, List.mem_cons, not_or] at h
    unfold look
    rw [if_neg (by exact fun hc => h.1 hc.symm), ih h.2]

/-- Scattered writes preserve the length of the result buffer. -/
lemma foldl_set_length (f : ℕ → ℚ) :
    ∀ (l : List ℕ) (res : List ℚ),
    (l.foldl (fun r i => r.set i (f i)) res).length = res.length := by
  intro l
  induction l with
  | nil => intro res; rfl
  | cons j js ih =>
    intro res
    rw [List.foldl_cons, ih, List.length_set]

/-- Reading back buffer slot `i` after the scattered writes `r.set i (f i)`
for every index in `l`. -/
lemma foldl_set_getD (f : ℕ → ℚ) :
    ∀ (l : List ℕ) (res : List ℚ), (∀ m ∈ l, m < res.length) → ∀ i,
    (l.foldl (fun r i => r.set i (f i)) res).getD i 0 =
      if i ∈ l then f i else res.getD i 0 := by
  intro l
  induction l with
  | nil =>
    intro res _ i
    simp
  | cons j js ih =>
    intro res hlt i
    rw [List.foldl_cons]
    rw [ih (res.set j (f j))
      (fun m hm => by rw [List.length_set]; exact hlt m (List.mem_cons_of_mem j hm)) i]
    by_cases hmem : i ∈ js
    · rw [if_pos hmem, if_pos (List.mem_cons_of_mem j hmem)]
    · rw [if_neg hmem]
      by_cases hij : i = j
      · subst hij
        rw [if_pos (List.mem_cons_self i js)]
        rw [List.getD_eq_getElem?_getD, List.getElem?_set_eq (hlt i (List.mem_cons_self i js))]
        rfl
      · rw [if_neg (by
          intro hc
          rcases List.mem_cons.mp hc with h | h
          · exact hij h
          · exact hmem h)]
        rw [List.getD_eq_getElem?_getD, List.getElem?_set_ne (fun hc => hij hc.symm),
          ← List.getD_eq_getElem?_getD]

/-- Scattered writes of `roundF32`-images keep every buffer entry a
`roundF32`-image. -/
lemma foldl_set_mem_roundF32 (f : ℕ → ℚ) (hf : ∀ i, ∃ x, f i = roundF32 x) :
    ∀ (l : List ℕ) (res : List ℚ), (∀ v ∈ res, ∃ x, v = roundF32 x) →
    ∀ v ∈ l.foldl (fun r i => r.set i (f i)) res, ∃ x, v = roundF32 x := by
  intro l
  induction l with
  | nil => intro res hres; exact hres
  | cons j js ih =>
    intro res hres
    rw [List.foldl_cons]
    refine ih (res.set j (f j)) ?_
    intro v hv
    rcases List.mem_or_eq_of_mem_set hv with h | h
    · exact hres v h
    · rw [h]; exact hf j

/-- The matched-index list of one batched loop iteration. -/
def matchIdxs (phases : List PyKey) (k : PyKey) : List ℕ :=
  (List.range phases.length).filter fun i => decide (phases.getD i (PyKey.str ("")) = k)

/-- Membership in the matched-index list. -/
lemma mem_matchIdxs {phases : List PyKey} {k : PyKey} {i : ℕ} :
    i ∈ matchIdxs phases k ↔ i < phases.length ∧ phases.getD i (PyKey.str ("")) = k := by
  unfold matchIdxs
  rw [List.mem_filter, List.mem_range, decide_eq_true_eq]

/-- When the coordinate arrays are at least as long as the phase array,
one batched loop iteration performs its scattered writes and succeeds. -/
lemma applyEntry_ok (ct : CTOracle) (sel : PhaseS → List Cell) (model : String)
    (phases : List PyKey) (ecd dep : List ℚ) (res : List ℚ) (ent : PyKey × PhaseS)
    (he : phases.length ≤ ecd.length) (hd : phases.length ≤ dep.length) :
    applyEntry ct sel model phases ecd dep res ent =
      .ok ((matchIdxs phases ent.1).foldl
        (fun r i => r.set i (roundF32 (CT2Deval ct ent.2.pts (sel ent.2) ent.2.fill_value
          (ecd.getD i 0, dep.getD i 0)))) res) := by
  unfold applyEntry matchIdxs
  by_cases hempty : ((List.range phases.length).filter
      fun i => decide (phases.getD i (PyKey.str ("")) = ent.1)).isEmpty
  · rw [if_pos hempty]
    rw [List.isEmpty_iff.mp hempty]
    rfl
  · rw [if_neg hempty, if_pos ?_]
    rw [Bool.and_eq_true]
    constructor
    · rw [List.all_eq_true]
      intro i hi
      have := (List.mem_filter.mp hi).1
      rw [List.mem_range] at this
      rw [decide_eq_true_eq]
      omega
    · rw [List.all_eq_true]
      intro i hi
      have := (List.mem_filter.mp hi).1
      rw [List.mem_range] at this
      rw [decide_eq_true_eq]
      omega

/-- Slot contents after the whole batched loop: with distinct registered
keys, slot `i` holds the interpolated value of the unique entry matching
`phases[i]`, or its initial content when no entry matches. -/
lemma foldlM_applyEntry_slots (ct : CTOracle) (sel : PhaseS → List Cell) (model : String)
    (phases : List PyKey) (ecd dep : List ℚ)
    (he : phases.length ≤ ecd.length) (hd : phases.length ≤ dep.length) :
    ∀ (ents : List (PyKey × PhaseS)) (init : List ℚ),
      (ents.map Prod.fst).Nodup → init.length = phases.length →
      ∃ res, ents.foldlM (applyEntry ct sel model phases ecd dep) init = .ok res ∧
        res.length = phases.length ∧
        ∀ i, i < phases.length →
          res.getD i 0 = (match look ents (phases.getD i (PyKey.str (""))) with
            | some ph => roundF32 (CT2Deval ct ph.pts (sel ph) ph.fill_value
                (ecd.getD i 0, dep.getD i 0))
            | none => init.getD i 0) := by
  intro ents
  induction ents with
  | nil =>
    intro init _ hlen
    refine ⟨init, rfl, hlen, ?_⟩
    intro i _
    rfl
  | cons e rest ih =>
    intro init hnd hlen
    rw [List.map_cons, List.nodup_cons] at hnd
    have hmid := applyEntry_ok ct sel model phases ecd dep init e he hd
    have hmidlen : ((matchIdxs phases e.1).foldl
        (fun r i => r.set i (roundF32 (CT2Deval ct e.2.pts (sel e.2) e.2.fill_value
          (ecd.getD i 0, dep.getD i 0)))) init).length = phases.length := by
      rw [foldl_set_length, hlen]
    obtain ⟨res, hres, hreslen, hslot⟩ := ih _ hnd.2 hmidlen
    refine ⟨res, ?_, hreslen, ?_⟩
    · rw [List.foldlM_cons, hmid]
      exact hres
    · intro i hi
      rw [hslot i hi]
      obtain ⟨ek, ev⟩ := e
      by_cases hkey : phases.getD i (PyKey.str ("")) = ek
      · have hlook1 : look ((ek, ev) :: rest) (phases.getD i (PyKey.str (""))) = some ev := by
          show (if ek = phases.getD i (PyKey.str ("")) then some ev
            else look rest (phases.getD i (PyKey.str ("")))) = some ev
          rw [if_pos hkey.symm]
        have hlook2 : look rest (phases.getD i (PyKey.str (""))) = none := by
          apply look_eq_none_of_not_mem
          rw [hkey]
          exact hnd.1
        rw [hlook1, hlook2]
        rw [foldl_set_getD _ (matchIdxs phases (ek, ev).1) init
          (fun m hm => by rw [hlen]; exact (mem_matchIdxs.mp hm).1) i]
        rw [if_pos (mem_matchIdxs.mpr ⟨hi, hkey⟩)]
      · have hlook1 : look ((ek, ev) :: rest) (phases.getD i (PyKey.str (""))) =
            look rest (phases.getD i (PyKey.str (""))) := by
          show (if ek = phases.getD i (PyKey.str ("")) then some ev
            else look rest (phases.getD i (PyKey.str ("")))) =
            look rest (phases.getD i (PyKey.str ("")))
          rw [if_neg (fun hc => hkey hc.symm)]
        rw [hlook1]
        cases look rest (phases.getD i (PyKey.str (""))) with
        | some ph => rfl
        | none =>
          rw [foldl_set_getD _ (matchIdxs phases (ek, ev).1) init
            (fun m hm => by rw [hlen]; exact (mem_matchIdxs.mp hm).1) i]
          rw [if_neg (fun hc => hkey (mem_matchIdxs.mp hc).2)]

/-- The closed form of the batched branch: under parallel array lengths
and distinct registered keys, it succeeds and slot `i` equals the
float32 rounding of the scalar-branch value at the entries of index `i`. -/
lemma getQtyBatch_eq (ct : CTOracle) (sel : PhaseS → List Cell) (reg : Registry)
    (phases : List PyKey) (ecd dep : List ℚ) (model : String)
    (hnd : ((mLookup reg model).map Prod.fst).Nodup)
    (he : ecd.length = phases.length) (hd : dep.length = phases.length) :
    getQtyBatch ct sel reg phases ecd dep model =
      .ok ((List.range phases.length).map (fun i =>
        roundF32 (scalarVal ct sel reg (phases.getD i (PyKey.str ("")))
          (ecd.getD i 0) (dep.getD i 0) model)), ddTouch reg model) := by
  unfold getQtyBatch
  have hinitlen : (List.replicate phases.length (roundF32 LARGE_VALUE)).length = phases.length :=
    List.length_replicate _ _
  obtain ⟨res, hres, hreslen, hslot⟩ := foldlM_applyEntry_slots ct sel model phases ecd dep
    (le_of_eq he.symm) (le_of_eq hd.symm) (mLookup reg model)
    (List.replicate phases.length (roundF32 LARGE_VALUE)) hnd hinitlen
  rw [hres]
  have hmaplen : ((List.range phases.length).map (fun i =>
      roundF32 (scalarVal ct sel reg (phases.getD i (PyKey.str ("")))
        (ecd.getD i 0) (dep.getD i 0) model))).length = phases.length := by
    rw [List.length_map, List.length_range]
  have : res = (List.range phases.length).map (fun i =>
      roundF32 (scalarVal ct sel reg (phases.getD i (PyKey.str ("")))
        (ecd.getD i 0) (dep.getD i 0) model)) := by
    apply List.ext_getElem (by rw [hreslen, hmaplen])
    intro n h1 h2
    rw [← List.getD_eq_getElem res 0 h1]
    have hn : n < phases.length := by rw [← hreslen]; exact h1
    rw [hslot n hn]
    rw [List.getElem_map]
    rw [List.getElem_range]
    unfold scalarVal
    cases look (mLookup reg model) (phases.getD n (PyKey.str (""))) with
    | some ph => rfl
    | none =>
      show (List.replicate phases.length (roundF32 LARGE_VALUE)).getD n 0 = roundF32 LARGE_VALUE
      rw [List.getD_eq_getElem?_getD (List.replicate phases.length (roundF32 LARGE_VALUE)) n 0,
        List.getElem?_replicate, if_pos hn]
      rfl
  rw [this]

/-- Reading slot `i < n` of a mapped index range. -/
lemma range_map_getD (n : ℕ) (f : ℕ → ℚ) (i : ℕ) (hi : i < n) :
    ((List.range n).map f).getD i 0 = f i := by
  rw [List.getD_eq_getElem ((List.range n).map f) 0
    (by rw [List.length_map, List.length_range]; exact hi)]
  rw [List.getElem_map, List.getElem_range]

/-- C5 (amended): over parallel arrays, batched `get_tt` succeeds and its
result is aligned with the input order, each slot holding the float32
rounding (the `dtype='f4'` result array) of the value the scalar-branch
computation produces for that slot's phase, distance, and depth; the
scalar call itself returns that value unrounded. -/
theorem c5_batch_eq_scalar_float32_amended (ct : CTOracle) (reg : Registry)
    (phases : List PyKey) (ecd dep : List ℚ) (model : String)
    (hnd : ((mLookup reg model).map Prod.fst).Nodup)
    (he : ecd.length = phases.length) (hd : dep.length = phases.length) :
    get_tt_batch ct reg phases ecd dep model =
      .ok ((List.range phases.length).map (fun i =>
        roundF32 (scalarVal ct (fun p => p.tvals) reg (phases.getD i (PyKey.str ("")))
          (ecd.getD i 0) (dep.getD i 0) model)), ddTouch reg model) ∧
    (∀ phase e d, get_tt_scalar ct reg phase e d model =
      .ok (scalarVal ct (fun p => p.tvals) reg phase e d model, ddTouch reg model)) :=
  ⟨getQtyBatch_eq ct (fun p => p.tvals) reg phases ecd dep model hnd he hd,
   fun _ _ _ => rfl⟩

/-- Witness for the amended C5 at the concrete registry `regP`. -/
theorem c5_batch_eq_scalar_float32_amended_witness :
    get_tt_batch ctK regP [PyKey.bytes ("P")] [5] [25] "ak135" =
      .ok ((List.range ([PyKey.bytes ("P")] : List PyKey).length).map (fun i =>
        roundF32 (scalarVal ctK (fun p => p.tvals) regP
          (([PyKey.bytes ("P")] : List PyKey).getD i (PyKey.str ("")))
          (([(5 : ℚ)] : List ℚ).getD i 0) (([(25 : ℚ)] : List ℚ).getD i 0) "ak135")),
        ddTouch regP ("ak135")) :=
  (c5_batch_eq_scalar_float32_amended ctK regP [PyKey.bytes ("P")] [5] [25] "ak135"
    (by decide) (by decide) (by decide)).1

/-- C5 (counterexample): for the registered phase `b'P'` and the in-hull
query point (5, 25), with tabulated value `2 ^ 24 + 1`, the batched
`get_tt` element is `16777216` (the float32 rounding) while the
equivalent scalar `get_tt` call returns `16777217`: batched elements do
not equal the scalar values exactly. -/
theorem c5_batch_differs_from_scalar :
    get_tt_batch ctK regP [PyKey.bytes ("P")] [5] [25] "ak135" = .ok ([16777216], regP) ∧
    get_tt_scalar ctK regP (PyKey.bytes ("P")) 5 25 ("ak135") = .ok ((16777217 : ℚ), regP) ∧
    ((16777216 : ℚ) ≠ 16777217) := by
  refine ⟨by decide, by decide, by decide⟩

/-- C4 (amended): in a batched query over parallel arrays, an index whose
phase label matches no registered key of the model receives the float32
rounding of the fill value in its output slot, and the call returns
normally. -/
theorem c4_batch_unknown_fill32_amended (ct : CTOracle) (reg : Registry)
    (phases : List PyKey) (ecd dep : List ℚ) (model : String) (i : ℕ)
    (hnd : ((mLookup reg model).map Prod.fst).Nodup)
    (he : ecd.length = phases.length) (hd : dep.length = phases.length)
    (hi : i < phases.length)
    (hun : look (mLookup reg model) (phases.getD i (PyKey.str (""))) = none) :
    ∃ res, get_tt_batch ct reg phases ecd dep model = .ok (res, ddTouch reg model) ∧
      res.getD i 0 = roundF32 LARGE_VALUE := by
  refine ⟨_, getQtyBatch_eq ct (fun p => p.tvals) reg phases ecd dep model hnd he hd, ?_⟩
  rw [range_map_getD phases.length _ i hi]
  unfold scalarVal
  rw [hun]

/-- Witness for the amended C4: phase `b'Q'` is unregistered and its
batched slot holds the float32-rounded fill value. -/
theorem c4_batch_unknown_fill32_amended_witness :
    ∃ res, get_tt_batch ct0 regP [PyKey.bytes ("Q")] [1] [2] "ak135" =
      .ok (res, ddTouch regP ("ak135")) ∧ res.getD 0 0 = roundF32 LARGE_VALUE :=
  c4_batch_unknown_fill32_amended ct0 regP [PyKey.bytes ("Q")] [1] [2] "ak135" 0
    (by decide) (by decide) (by decide) (by decide) (by decide)

/-- C4 (counterexample): the unmatched batched slot holds `2147483648.0`,
the float32 rounding of the fill value, which is not the global fill
value `LARGE_VALUE = 2147483647.0` itself. -/
theorem c4_batch_slot_not_exact_fill :
    get_tt_batch ct0 regP [PyKey.bytes ("Q")] [1] [2] "ak135" = .ok ([2147483648], regP) ∧
    ((2147483648 : ℚ) ≠ LARGE_VALUE) := by
  refine ⟨by decide, by decide⟩

/-- One batched loop iteration keeps every slot a `roundF32`-image. -/
lemma applyEntry_mem_roundF32 {ct : CTOracle} {sel : PhaseS → List Cell} {model : String}
    {phases : List PyKey} {ecd dep : List ℚ} {res res2 : List ℚ} {ent : PyKey × PhaseS}
    (h : applyEntry ct sel model phases ecd dep res ent = .ok res2)
    (hres : ∀ v ∈ res, ∃ x, v = roundF32 x) :
    ∀ v ∈ res2, ∃ x, v = roundF32 x := by
  unfold applyEntry at h
  dsimp only at h
  split at h
  · cases h
    exact hres
  · split at h
    · cases h
      exact foldl_set_mem_roundF32 _ (fun i => ⟨_, rfl⟩) _ res hres
    · exact absurd h (by simp)

/-- `>>=` on a successful `Except` value. -/
lemma except_bind_ok {ε α β : Type} (a : α) (f : α → Except ε β) :
    (Except.ok a >>= f) = f a := rfl

/-- `>>=` on a failed `Except` value. -/
lemma except_bind_error {ε α β : Type} (e : ε) (f : α → Except ε β) :
    ((Except.error e : Except ε α) >>= f) = Except.error e := rfl

/-- The whole batched loop keeps every slot a `roundF32`-image. -/
lemma foldlM_mem_roundF32 {ct : CTOracle} {sel : PhaseS → List Cell} {model : String}
    {phases : List PyKey} {ecd dep : List ℚ} :
    ∀ (ents : List (PyKey × PhaseS)) (init res : List ℚ),
      (∀ v ∈ init, ∃ x, v = roundF32 x) →
      ents.foldlM (applyEntry ct sel model phases ecd dep) init = .ok res →
      ∀ v ∈ res, ∃ x, v = roundF32 x := by
  intro ents
  induction ents with
  | nil =>
    intro init res hinit h
    rw [List.foldlM_nil] at h
    cases h
    exact hinit
  | cons e rest ih =>
    intro init res hinit h
    rw [List.foldlM_cons] at h
    cases hmid : applyEntry ct sel model phases ecd dep init e with
    | error err =>
      rw [hmid, except_bind_error] at h
      exact absurd h (by simp)
    | ok mid =>
      rw [hmid, except_bind_ok] at h
      exact ih mid res (applyEntry_mem_roundF32 hmid hinit) h

/-- Every slot of a successful batched result is a float32 value. -/
lemma batch_mem_roundF32 {ct : CTOracle} {sel : PhaseS → List Cell} {reg : Registry}
    {phases : List PyKey} {ecd dep : List ℚ} {model : String} {res : List ℚ} {reg2 : Registry}
    (h : getQtyBatch ct sel reg phases ecd dep model = .ok (res, reg2)) :
    ∀ v ∈ res, ∃ x, v = roundF32 x := by
  unfold getQtyBatch at h
  cases hf : (mLookup reg model).foldlM (applyEntry ct sel model phases ecd dep)
      (List.replicate phases.length (roundF32 LARGE_VALUE)) with
  | error e =>
    rw [hf] at h
    exact absurd h (by simp)
  | ok r =>
    rw [hf] at h
    have hr : r = res := by
      cases h
      rfl
    subst hr
    exact foldlM_mem_roundF32 (mLookup reg model) _ r
      (fun v hv => ⟨LARGE_VALUE, List.eq_of_mem_replicate hv⟩) hf

/-- C8: the batched result array has float32 precision: every slot of a
successful batched `get_tt` is the float32 rounding of some value
(computed slots are the rounded interpolated values, unmatched slots the
rounded fill value); with the default fill `LARGE_VALUE = 2147483647.0`,
an unmatched batched slot holds `2147483648.0`, which differs from the
`2147483647.0` the scalar call shape returns. -/
theorem c8_batch_float32_precision :
    (∀ (ct : CTOracle) (reg : Registry) (phases : List PyKey) (ecd dep : List ℚ)
      (model : String) (res : List ℚ) (reg2 : Registry),
      get_tt_batch ct reg phases ecd dep model = .ok (res, reg2) →
      ∀ v ∈ res, ∃ x, v = roundF32 x) ∧
    LARGE_VALUE = 2147483647 ∧
    roundF32 LARGE_VALUE = 2147483648 ∧
    get_tt_batch ct0 regP [PyKey.bytes ("Q")] [1] [2] "ak135" = .ok ([2147483648], regP) ∧
    get_tt_scalar ct0 regP (PyKey.bytes ("Q")) 1 2 ("ak135") = .ok ((2147483647 : ℚ), regP) ∧
    get_tt_batch ctK regP [PyKey.bytes ("P")] [5] [25] "ak135" = .ok ([roundF32 16777217], regP) ∧
    ((2147483648 : ℚ) ≠ 2147483647) := by
  refine ⟨fun ct reg phases ecd dep model res reg2 h => batch_mem_roundF32 h,
    by decide, by decide, by decide, by decide, by decide, by decide⟩

/-- Witness for C8: the concrete unmatched slot value is a float32 value. -/
theorem c8_batch_float32_precision_witness :
    ∃ x, (2147483648 : ℚ) = roundF32 x :=
  c8_batch_float32_precision.1 ct0 regP [PyKey.bytes ("Q")] [1] [2] "ak135" [2147483648] regP
    c8_batch_float32_precision.2.2.2.1 2147483648 (by decide)

/-! ### Registry state effects (C7) -/

/-- The defaultdict touch leaves the registry unchanged when the model is
already a key. -/
lemma ddTouch_of_mem {reg : Registry} {model : String} (h : (look reg model).isSome = true) :
    ddTouch reg model = reg := by
  unfold ddTouch
  rw [if_pos h]

/-- A successful batched query returns the touched registry. -/
lemma getQtyBatch_snd {ct : CTOracle} {sel : PhaseS → List Cell} {reg : Registry}
    {phases : List PyKey} {ecd dep : List ℚ} {model : String} {out : List ℚ × Registry}
    (h : getQtyBatch ct sel reg phases ecd dep model = .ok out) :
    out.2 = ddTouch reg model := by
  unfold getQtyBatch at h
  cases hf : (mLookup reg model).foldlM (applyEntry ct sel model phases ecd dep)
      (List.replicate phases.length (roundF32 LARGE_VALUE)) with
  | error e =>
    rw [hf] at h
    exact absurd h (by simp)
  | ok r =>
    rw [hf] at h
    cases h
    rfl

/-- C7 (amended): for a model that is registered, every query call, in
all three quantities and both call shapes, leaves the registry exactly as
it was (no observable state effect); the defaultdict insertion effect
arises only for unregistered models. -/
theorem c7_registered_model_no_mutation_amended (ct : CTOracle) (reg : Registry) (model : String)
    (hm : (look reg model).isSome = true) :
    (∀ phase e d, (get_tt_scalar ct reg phase e d model).map Prod.snd = .ok reg) ∧
    (∀ phase e d, (get_dtdd_scalar ct reg phase e d model).map Prod.snd = .ok reg) ∧
    (∀ phase e d, (get_dtdh_scalar ct reg phase e d model).map Prod.snd = .ok reg) ∧
    (∀ phases ecd dep out, get_tt_batch ct reg phases ecd dep model = .ok out → out.2 = reg) ∧
    (∀ phases ecd dep out, get_dtdd_batch ct reg phases ecd dep model = .ok out → out.2 = reg) ∧
    (∀ phases ecd dep out, get_dtdh_batch ct reg phases ecd dep model = .ok out → out.2 = reg) := by
  have ht := ddTouch_of_mem hm
  refine ⟨fun phase e d => ?_, fun phase e d => ?_, fun phase e d => ?_,
    fun phases ecd dep out h => ?_, fun phases ecd dep out h => ?_,
    fun phases ecd dep out h => ?_⟩
  · show (Except.ok (scalarVal ct (fun p => p.tvals) reg phase e d model,
      ddTouch reg model)).map Prod.snd = .ok reg
    rw [ht]
    rfl
  · show (Except.ok (scalarVal ct (fun p => p.ddvals) reg phase e d model,
      ddTouch reg model)).map Prod.snd = .ok reg
    rw [ht]
    rfl
  · show (Except.ok (scalarVal ct (fun p => p.dhvals) reg phase e d model,
      ddTouch reg model)).map Prod.snd = .ok reg
    rw [ht]
    rfl
  · rw [getQtyBatch_snd h, ht]
  · rw [getQtyBatch_snd h, ht]
  · rw [getQtyBatch_snd h, ht]

/-- Witness for the amended C7: queries on the registered model `ak135`
return `regP` unchanged. -/
theorem c7_registered_model_no_mutation_amended_witness :
    (get_tt_scalar ct0 regP (PyKey.bytes ("P")) 1 2 ("ak135")).map Prod.snd = .ok regP :=
  (c7_registered_model_no_mutation_amended ct0 regP ("ak135") (by decide)).1 (PyKey.bytes ("P")) 1 2

/-- C7 (counterexample): a scalar query naming the unregistered model
`iasp91` returns an extended registry: the defaultdict lookup inserts an
empty phase map for the unknown model, an observable mutation of the
registry state. -/
theorem c7_query_mutates_registry :
    get_tt_scalar ct0 regP (PyKey.bytes ("P")) 1 2 ("iasp91") =
      .ok (LARGE_VALUE, regP ++ [("iasp91", [])]) ∧
    regP ++ [("iasp91", [])] ≠ regP := by
  refine ⟨by decide, by decide⟩

/-! ### Byte-string phase keys (C9) -/

/-- Every phase key of every model entry is a byte-string key. -/
def keysAllBytes (reg : Registry) : Prop :=
  ∀ p ∈ reg, ∀ e ∈ p.2, ∃ s, e.1 = PyKey.bytes s

/-- Keys appearing after an overwrite-or-append insert: the inserted key
or an existing one. -/
lemma mem_alInsert {α β : Type} [DecidableEq α] :
    ∀ (l : List (α × β)) (k : α) (v : β) (x : α × β),
    x ∈ alInsert l k v → x.1 = k ∨ x ∈ l := by
  intro l
  induction l with
  | nil =>
    intro k v x hx
    rcases List.mem_singleton.mp hx with h
    rw [h]
    exact Or.inl rfl
  | cons e rest ih =>
    intro k v x hx
    obtain ⟨k0, v0⟩ := e
    unfold alInsert at hx
    by_cases hk : k0 = k
    · rw [if_pos hk] at hx
      rcases List.mem_cons.mp hx with h | h
      · rw [h]
        exact Or.inl hk
      · exact Or.inr (List.mem_cons_of_mem _ h)
    · rw [if_neg hk] at hx
      rcases List.mem_cons.mp hx with h | h
      · rw [h]
        exact Or.inr (List.mem_cons_self _ _)
      · rcases ih k v x h with h2 | h2
        · exact Or.inl h2
        · exact Or.inr (List.mem_cons_of_mem _ h2)

/-- Registering a phase under a byte-string key preserves the all-bytes
key invariant. -/
lemma keysAllBytes_alInsert2 :
    ∀ (reg : Registry) (model : String) (s : String) (ph : PhaseS),
    keysAllBytes reg → keysAllBytes (alInsert2 reg model (PyKey.bytes s) ph) := by
  intro reg
  induction reg with
  | nil =>
    intro model s ph _ p hp e he
    rcases List.mem_singleton.mp hp with h
    rw [h] at he
    rcases List.mem_singleton.mp he with h2
    rw [h2]
    exact ⟨s, rfl⟩
  | cons me rest ih =>
    intro model s ph hall p hp e he
    obtain ⟨m0, ks⟩ := me
    unfold alInsert2 at hp
    by_cases hm : m0 = model
    · rw [if_pos hm] at hp
      rcases List.mem_cons.mp hp with h | h
      · rw [h] at he
        rcases mem_alInsert ks (PyKey.bytes s) ph e he with h2 | h2
        · exact ⟨s, h2⟩
        · exact hall (m0, ks) (List.mem_cons_self _ _) e h2
      · exact hall p (List.mem_cons_of_mem _ h) e he
    · rw [if_neg hm] at hp
      rcases List.mem_cons.mp hp with h | h
      · rw [h] at he
        exact hall (m0, ks) (List.mem_cons_self _ _) e he
      · exact ih model s ph (fun q hq => hall q (List.mem_cons_of_mem _ hq)) p h e he

/-- Construction from table files preserves the all-bytes key invariant
of the accumulator. -/
lemma ttInitAux_keysAllBytes :
    ∀ (files : List (String × List Line)) (acc reg : Registry),
    ttInitAux files acc = .ok reg → keysAllBytes acc → keysAllBytes reg := by
  intro files
  induction files with
  | nil =>
    intro acc reg h hacc
    cases h
    exact hacc
  | cons f rest ih =>
    intro acc reg h hacc
    obtain ⟨fn, content⟩ := f
    unfold ttInitAux at h
    cases hsplit : splitDot fn with
    | nil => rw [hsplit] at h; exact absurd h (by simp)
    | cons p1 ps =>
      rw [hsplit] at h
      match ps with
      | [] => exact absurd h (by simp)
      | [p2] => exact absurd h (by simp)
      | [p2, p3] =>
        dsimp only at h
        cases hph : mkPhaseOfFile LARGE_VALUE content with
        | error e =>
          rw [hph, except_bind_error] at h
          exact absurd h (by simp)
        | ok ph =>
          rw [hph, except_bind_ok] at h
          exact ih _ reg h (keysAllBytes_alInsert2 acc p1 p2 ph hacc)
      | p2 :: p3 :: p4 :: ps2 => exact absurd h (by simp)

/-- A successful association-list lookup exhibits a member. -/
lemma look_mem {α β : Type} [DecidableEq α] :
    ∀ {l : List (α × β)} {k : α} {v : β}, look l k = some v → (k, v) ∈ l := by
  intro l
  induction l with
  | nil =>
    intro k v h
    exact absurd h (by simp [look])
  | cons e rest ih =>
    intro k v h
    obtain ⟨k0, v0⟩ := e
    rw [show look ((k0, v0) :: rest) k = if k0 = k then some v0 else look rest k from rfl] at h
    by_cases hk : k0 = k
    · rw [if_pos hk] at h
      cases h
      rw [← hk]
      exact List.mem_cons_self _ _
    · rw [if_neg hk] at h
      exact List.mem_cons_of_mem _ (ih h)

/-- A text-string key misses a map whose keys are all byte strings. -/
lemma look_str_none {m : List (PyKey × PhaseS)} (hall : ∀ e ∈ m, ∃ s, e.1 = PyKey.bytes s)
    (s0 : String) : look m (PyKey.str s0) = none := by
  induction m with
  | nil => rfl
  | cons e rest ih =>
    obtain ⟨k, v⟩ := e
    obtain ⟨s, hs⟩ := hall (k, v) (List.mem_cons_self _ _)
    show (if k = PyKey.str s0 then some v else look rest (PyKey.str s0)) = none
    rw [if_neg (by
      intro hc
      rw [hc] at hs
      exact PyKey.noConfusion hs)]
    exact ih (fun q hq => hall q (List.mem_cons_of_mem _ hq))

/-- C9: the registry built by `TTInterpolator.__init__` keys phases by
byte-string encodings of the phase names from the file names, so a
text-string phase label with the same characters matches nothing: every
scalar query with a `str` label returns the fill value (for any model). -/
theorem c9_bytes_keys_scalar_str_fill (files : List (String × List Line)) (reg : Registry)
    (hinit : ttInit files = .ok reg) :
    keysAllBytes reg ∧
    (∀ (ct : CTOracle) (s : String) (e d : ℚ) (model : String),
      get_tt_scalar ct reg (PyKey.str s) e d model = .ok (LARGE_VALUE, ddTouch reg model) ∧
      get_dtdd_scalar ct reg (PyKey.str s) e d model = .ok (LARGE_VALUE, ddTouch reg model) ∧
      get_dtdh_scalar ct reg (PyKey.str s) e d model = .ok (LARGE_VALUE, ddTouch reg model)) := by
  have hall : keysAllBytes reg := ttInitAux_keysAllBytes files [] reg hinit (by
    intro p hp
    exact absurd hp (List.not_mem_nil p))
  refine ⟨hall, ?_⟩
  intro ct s e d model
  have hmiss : look (mLookup reg model) (PyKey.str s) = none := by
    unfold mLookup
    cases hl : look reg model with
    | none => rfl
    | some m =>
      have hmem : (model, m) ∈ reg := look_mem hl
      exact look_str_none (fun q hq => hall (model, m) hmem q hq) s
  unfold get_tt_scalar get_dtdd_scalar get_dtdh_scalar getQtyScalar scalarVal
  rw [hmiss]
  exact ⟨rfl, rfl, rfl⟩

/-- Witness for C9: the `str`-labelled scalar query on `regP` yields the
fill value, while the byte-string key `b'P'` is registered. -/
theorem c9_bytes_keys_scalar_str_fill_witness :
    get_tt_scalar ct0 regP (PyKey.str ("P")) 1 2 ("ak135") = .ok (LARGE_VALUE, ddTouch regP ("ak135")) :=
  ((c9_bytes_keys_scalar_str_fill [("ak135.P.tab", wellFile)] regP (by decide)).2
    ct0 ("P") 1 2 ("ak135")).1

/-! ### Out-of-hull fill behaviour (C6) -/

/-- The three signed sub-areas sum to the triangle area. -/
lemma tri_area_sum (a b c q : Q2) :
    cross2 (sub2 b a) (sub2 q a) + cross2 (sub2 c b) (sub2 q b) + cross2 (sub2 a c) (sub2 q c)
      = cross2 (sub2 b a) (sub2 c a) := by
  simp only [cross2, sub2]
  ring

/-- The barycentric reconstruction identity for the first coordinates. -/
lemma tri_bary_x (a b c q : Q2) :
    cross2 (sub2 c b) (sub2 q b) * a.1 + cross2 (sub2 a c) (sub2 q c) * b.1 +
      cross2 (sub2 b a) (sub2 q a) * c.1 = cross2 (sub2 b a) (sub2 c a) * q.1 := by
  simp only [cross2, sub2]
  ring

/-- The barycentric reconstruction identity for the second coordinates. -/
lemma tri_bary_y (a b c q : Q2) :
    cross2 (sub2 c b) (sub2 q b) * a.2 + cross2 (sub2 a c) (sub2 q c) * b.2 +
      cross2 (sub2 b a) (sub2 q a) * c.2 = cross2 (sub2 b a) (sub2 c a) * q.2 := by
  simp only [cross2, sub2]
  ring

/-- A point passing the sign tests of `triContains` is a convex
combination of the triangle's vertices. -/
lemma triContains_combo {a b c q : Q2} (h : triContains a b c q = true) :
    ∃ f : Fin 3 → ℚ, (∀ i, 0 ≤ f i) ∧ (f 0 + f 1 + f 2 = 1) ∧
      f 0 • a + f 1 • b + f 2 • c = q := by
  unfold triContains at h
  rw [decide_eq_true_eq] at h
  obtain ⟨hdet, hsgn⟩ := h
  have hsum := tri_area_sum a b c q
  have hx := tri_bary_x a b c q
  have hy := tri_bary_y a b c q
  set det := cross2 (sub2 b a) (sub2 c a) with hdet_def
  set s1 := cross2 (sub2 b a) (sub2 q a) with hs1_def
  set s2 := cross2 (sub2 c b) (sub2 q b) with hs2_def
  set s3 := cross2 (sub2 a c) (sub2 q c) with hs3_def
  have hsigns : (0 < det ∧ 0 ≤ s1 ∧ 0 ≤ s2 ∧ 0 ≤ s3) ∨
      (det < 0 ∧ s1 ≤ 0 ∧ s2 ≤ 0 ∧ s3 ≤ 0) := by
    rcases hsgn with ⟨h1, h2, h3⟩ | ⟨h1, h2, h3⟩
    · left
      exact ⟨lt_of_le_of_ne (by linarith) (Ne.symm hdet), h1, h2, h3⟩
    · right
      exact ⟨lt_of_le_of_ne (by linarith) hdet, h1, h2, h3⟩
  have hnn : 0 ≤ s2 / det ∧ 0 ≤ s3 / det ∧ 0 ≤ s1 / det := by
    rcases hsigns with ⟨h0, h1, h2, h3⟩ | ⟨h0, h1, h2, h3⟩
    · exact ⟨div_nonneg h2 (le_of_lt h0), div_nonneg h3 (le_of_lt h0),
        div_nonneg h1 (le_of_lt h0)⟩
    · refine ⟨?_, ?_, ?_⟩ <;> (rw [div_nonneg_iff]; right; constructor) <;> linarith
  refine ⟨![s2 / det, s3 / det, s1 / det], ?_, ?_, ?_⟩
  · intro i
    fin_cases i
    · exact hnn.1
    · exact hnn.2.1
    · exact hnn.2.2
  · show s2 / det + s3 / det + s1 / det = 1
    field_simp
    linarith
  · show (s2 / det) • a + (s3 / det) • b + (s1 / det) • c = q
    have h1 : ((s2 / det) • a + (s3 / det) • b + (s1 / det) • c).1 = q.1 := by
      simp only [Prod.fst_add, Prod.smul_fst, smul_eq_mul]
      field_simp
      linarith
    have h2 : ((s2 / det) • a + (s3 / det) • b + (s1 / det) • c).2 = q.2 := by
      simp only [Prod.snd_add, Prod.smul_snd, smul_eq_mul]
      field_simp
      linarith
    exact Prod.ext h1 h2

/-- A point accepted by the decidable hull test lies in the convex hull
of the sample points. -/
lemma inHullB_mem_hull {pts : List Q2} {q : Q2} (h : inHullB pts q = true) :
    q ∈ convexHull ℚ {p : Q2 | p ∈ pts} := by
  unfold inHullB at h
  rw [List.any_eq_true] at h
  obtain ⟨a, ha, h2⟩ := h
  rw [List.any_eq_true] at h2
  obtain ⟨b, hb, h3⟩ := h2
  rw [List.any_eq_true] at h3
  obtain ⟨c, hc, h4⟩ := h3
  obtain ⟨f, hf0, hf1, hfq⟩ := triContains_combo h4
  have h0 : ∀ i ∈ (Finset.univ : Finset (Fin 3)), 0 ≤ f i := fun i _ => hf0 i
  have h1 : ∑ i ∈ (Finset.univ : Finset (Fin 3)), f i = 1 := by
    rw [Fin.sum_univ_three]
    exact hf1
  have hzmem : ∀ i ∈ (Finset.univ : Finset (Fin 3)),
      (![a, b, c] : Fin 3 → Q2) i ∈ convexHull ℚ {p : Q2 | p ∈ pts} := by
    intro i _
    fin_cases i
    · exact subset_convexHull ℚ {p : Q2 | p ∈ pts} ha
    · exact subset_convexHull ℚ {p : Q2 | p ∈ pts} hb
    · exact subset_convexHull ℚ {p : Q2 | p ∈ pts} hc
  have hmem := (convex_convexHull ℚ {p : Q2 | p ∈ pts}).sum_mem h0 h1 hzmem
  rw [Fin.sum_univ_three] at hmem
  have e0 : (![a, b, c] : Fin 3 → Q2) 0 = a := rfl
  have e1 : (![a, b, c] : Fin 3 → Q2) 1 = b := rfl
  have e2 : (![a, b, c] : Fin 3 → Q2) 2 = c := rfl
  rw [e0, e1, e2, hfq] at hmem
  exact hmem

/-- A right half-plane is convex over the rationals. -/
lemma convex_fst_ge (r : ℚ) : Convex ℚ {p : Q2 | r ≤ p.1} := by
  intro x hx y hy s t hs ht hst
  simp only [Set.mem_setOf_eq] at hx hy ⊢
  have hco : (s • x + t • y).1 = s * x.1 + t * y.1 := by
    simp [Prod.fst_add, Prod.smul_fst, smul_eq_mul]
  rw [hco]
  have hsr := mul_le_mul_of_nonneg_left hx hs
  have htr := mul_le_mul_of_nonneg_left hy ht
  have hr : s * r + t * r = r := by rw [← add_mul, hst, one_mul]
  linarith

/-- A point with negative first coordinate lies outside the hull of
points with non-negative first coordinates. -/
lemma not_mem_hull_of_fst_neg {pts : List Q2} {x : Q2}
    (hpts : ∀ p ∈ pts, 0 ≤ p.1) (hx : x.1 < 0) :
    x ∉ convexHull ℚ {p : Q2 | p ∈ pts} := by
  intro hmem
  have hsub : convexHull ℚ {p : Q2 | p ∈ pts} ⊆ {p : Q2 | 0 ≤ p.1} :=
    convexHull_min (fun p hp => hpts p hp) (convex_fst_ge 0)
  have hge := hsub hmem
  simp only [Set.mem_setOf_eq] at hge
  linarith

/-- C6: for any constructed phase, any interpolation oracle and any
query point outside the convex hull of the phase's valid sample points,
all three interpolator evaluations return exactly the configured fill
value (and, being total functions, never fail). -/
theorem c6_outside_hull_fill (ph : PhaseS) (ct : CTOracle) (q : Q2)
    (hq : q ∉ convexHull ℚ {p : Q2 | p ∈ ph.pts}) :
    ph.times_itp ct q = ph.fill_value ∧ ph.dtdd_itp ct q = ph.fill_value ∧
    ph.dtdh_itp ct q = ph.fill_value := by
  have hb : inHullB ph.pts q = false := by
    cases hcase : inHullB ph.pts q
    · rfl
    · exact absurd (inHullB_mem_hull hcase) hq
  unfold PhaseS.times_itp PhaseS.dtdd_itp PhaseS.dtdh_itp CT2Deval
  rw [hb]
  exact ⟨rfl, rfl, rfl⟩

/-- Witness for C6: the faraway point (-1000, -1000) is outside the hull
of `phP`'s sample rectangle and all evaluations return the fill value. -/
theorem c6_outside_hull_fill_witness :
    ((-1000, -1000) : Q2) ∉ convexHull ℚ {p : Q2 | p ∈ phP.pts} ∧
    phP.times_itp ct0 ((-1000 : ℚ), (-1000 : ℚ)) = phP.fill_value := by
  have hq : ((-1000, -1000) : Q2) ∉ convexHull ℚ {p : Q2 | p ∈ phP.pts} :=
    not_mem_hull_of_fst_neg (by decide) (by norm_num)
  exact ⟨hq, (c6_outside_hull_fill phP ct0 ((-1000 : ℚ), (-1000 : ℚ)) hq).1⟩
